import Mathlib

/-!
Verification of the leaderboard collection pipeline in `collect_scores.py`.

The pipeline fetches an HTML leaderboard page, extracts the first table,
parses each row into a typed entry, filters the entries to one agent and a
set of mapped open-weight organisations, deduplicates the surviving
(model, organisation) pairs, matches each model to a hub repository via a
search capability, and joins the matches back onto the entries to build the
final report.

Modelling choices:
  * numeric cell values are exact rationals (a decimal numeral string is
    parsed exactly; the claims under study concern which value is parsed and
    whether a value is present, not floating point rounding);
  * character classes of the regexes and of the builtin conversions are
    modelled over ASCII (the regex classes involved are the digit class, the
    whitespace class and literal characters);
  * an uncaught exception (ValueError from `int`/`float`, IndexError from a
    list subscript, HTTPStatusError, RuntimeError) is `Except.error ()`;
  * the hub search capability is a `SearchStream`: the candidate repository
    ids the iterator yields in ranked order, plus a flag saying whether the
    iterator raises once those ids are exhausted.
-/

/-- ASCII decimal digit or dot: the character class of the group
`([0-9.]+)` used by the accuracy regex. -/
def isDigitDot (c : Char) : Bool := c.isDigit || c == '.'

/-- ASCII whitespace, the model of the regex class `\s` and of the
characters stripped by `str.strip` and by `int(str)`. -/
def isAsciiWs (c : Char) : Bool :=
  c == ' ' || c == '\t' || c == '\n' || c == '\r' || c == '\x0b' || c == '\x0c'

/-- Value of a string of ASCII digits, most significant first. -/
def natOfDigits (l : List Char) : Nat :=
  l.foldl (fun a c => a * 10 + (c.toNat - 48)) 0

/-- Checker for the digit part of a Python integer literal:
digits optionally separated by single underscores (`digits ( _ digits+ )*`).
`needDigit` is true at the start and right after an underscore. -/
def pyDigitRun : List Char → Bool → Bool
  | [], needDigit => !needDigit
  | c :: rest, needDigit =>
    if c.isDigit then pyDigitRun rest false
    else if c == '_' && !needDigit then pyDigitRun rest true
    else false

/-- Strip ASCII whitespace from both ends of a character list. -/
def pyStripChars (l : List Char) : List Char :=
  ((l.dropWhile isAsciiWs).reverse.dropWhile isAsciiWs).reverse

/-- Model of Python `int(s)`: surrounding whitespace stripped, optional
sign, then a digit run (underscore separators allowed); `none` when the
conversion raises ValueError. -/
def pyInt (s : String) : Option Int :=
  match pyStripChars s.data with
  | '+' :: r => if pyDigitRun r true then some (natOfDigits (r.filter Char.isDigit)) else none
  | '-' :: r => if pyDigitRun r true then some (-(natOfDigits (r.filter Char.isDigit) : Int)) else none
  | r => if pyDigitRun r true then some (natOfDigits (r.filter Char.isDigit)) else none

/-- Model of Python `float(s)` restricted to strings over digits and dots
(the only strings the accuracy regex can hand it): valid when there is at
most one dot and at least one digit; the value is the exact decimal, the
digits over ten to the power of the number of digits after the dot. -/
def pyFloatDD (l : List Char) : Option ℚ :=
  if l.all isDigitDot = true ∧ l.count '.' ≤ 1 ∧ l.any Char.isDigit = true then
    some (Rat.divInt (natOfDigits (l.filter Char.isDigit))
      (Int.ofNat (10 ^ ((l.dropWhile fun c => c ≠ '.').drop 1).length)))
  else none

/-- The literal margin token "N/A". -/
def naChars : List Char := ['N', '/', 'A']

/-- The anchored accuracy regex `([0-9.]+)%±\s*([0-9.]+|N/A)` applied at the
start of the cell (the semantics of `re.match`): returns the two captured
groups and the uncaptured rest of the string. The first group is the maximal
digit-dot run at position 0 (it must be followed by the two literals, which
are not in the class, so no backtracking arises); the margin group is the
maximal digit-dot run after the optional whitespace, or the literal "N/A". -/
def accMatchR (l : List Char) : Option (List Char × List Char × List Char) :=
  let g1 := l.takeWhile isDigitDot
  if g1 = [] then none
  else
    match l.drop g1.length with
    | '%' :: '±' :: r =>
      let r2 := r.dropWhile isAsciiWs
      let g2 := r2.takeWhile isDigitDot
      if g2 = [] then
        if naChars.isPrefixOf r2 then some (g1, naChars, r2.drop 3) else none
      else
        some (g1, g2, r2.drop g2.length)
    | _ => none

/-- The two captured groups of the accuracy regex, when `re.match` succeeds. -/
def accMatch (s : String) : Option (List Char × List Char) :=
  (accMatchR s.data).map fun x => (x.1, x.2.1)

/-- Modelled from the words of the specification, for comparison with the
code: the WHOLE accuracy cell matches the pattern
`<number>%±<number-or-"N/A">` with optional whitespace before the margin
(the code instead uses `re.match`, which only anchors at the start). -/
def specAccuracyWhole (s : String) : Bool :=
  match accMatchR s.data with
  | some (_, _, rest) => rest.isEmpty
  | none => false

deriving instance DecidableEq for Except

/-- One leaderboard row as parsed by `fetch_leaderboard`. -/
structure LeaderboardEntry where
  rank : Int
  agent : String
  model : String
  date : String
  agent_org : String
  model_org : String
  accuracy : ℚ
  error_margin : Option ℚ
deriving DecidableEq

/-- The per-row logic of the parsing loop in `fetch_leaderboard`:
`.ok none` is a skipped row (header, too few cells, wrong cell count, or an
accuracy cell the regex rejects), `.ok (some e)` a parsed entry, and
`.error ()` an uncaught ValueError (the `int`/`float` conversions sit
outside the `try` that guards the tuple unpacking). The conversions run in
source order: accuracy first, then the margin, then the rank. -/
def parseRow (cells : List String) : Except Unit (Option LeaderboardEntry) :=
  if cells.length ≤ 1 ∨ cells[1]? = some "Rank" then .ok none
  else
    match cells with
    | [_, rank_str, agent, model, date, agent_org, model_org, accuracy_str] =>
      match accMatch accuracy_str with
      | none => .ok none
      | some (g1, g2) =>
        match pyFloatDD g1 with
        | none => .error ()
        | some accuracy =>
          if g2 = naChars then
            match pyInt rank_str with
            | none => .error ()
            | some rk =>
              .ok (some ⟨rk, agent, model, date, agent_org, model_org, accuracy, none⟩)
          else
            match pyFloatDD g2 with
            | none => .error ()
            | some margin =>
              match pyInt rank_str with
              | none => .error ()
              | some rk =>
                .ok (some ⟨rk, agent, model, date, agent_org, model_org, accuracy, some margin⟩)
    | _ => .ok none

/-- The whole row loop of `fetch_leaderboard`: rows parsed in order, parsed
entries appended in order, and the first uncaught exception aborting the
run. -/
def parseRows : List (List String) → Except Unit (List LeaderboardEntry)
  | [] => .ok []
  | cs :: rest =>
    match parseRow cs with
    | .error e => .error e
    | .ok none => parseRows rest
    | .ok (some entry) =>
      match parseRows rest with
      | .error e => .error e
      | .ok tail => .ok (entry :: tail)

/-- First occurrence of the literal `pat` in `s`: the text before it and the
text after it. `none` when `pat` does not occur. -/
def splitFirst (pat : List Char) : List Char → Option (List Char × List Char)
  | [] => if pat.isPrefixOf [] then some ([], []) else none
  | c :: r =>
    if pat.isPrefixOf (c :: r) then some ([], (c :: r).drop pat.length)
    else
      match splitFirst pat r with
      | some (a, b) => some (c :: a, b)
      | none => none

/-- First occurrence of either of the two nonempty literals `p1`, `p2`
(leftmost wins; at equal positions `p1` is tried first, as in an ordered
regex alternation). -/
def splitFirst2 (p1 p2 : List Char) : List Char → Option (List Char × List Char)
  | [] => none
  | c :: r =>
    if p1.isPrefixOf (c :: r) then some ([], (c :: r).drop p1.length)
    else if p2.isPrefixOf (c :: r) then some ([], (c :: r).drop p2.length)
    else
      match splitFirst2 p1 p2 r with
      | some (a, b) => some (c :: a, b)
      | none => none

/-- The table extraction regex `<table.*?>(.*?)</table>` with DOTALL, as
`re.search` applies it: the literal `<table`, then (non-greedy) everything
up to the first `>`, then the captured group up to the first `</table>`.
Returns the captured group, `none` when the page has no such span. -/
def extractTable (s : String) : Option (List Char) :=
  match splitFirst "<table".data s.data with
  | none => none
  | some (_, r1) =>
    match splitFirst ">".data r1 with
    | none => none
    | some (_, r2) =>
      match splitFirst "</table>".data r2 with
      | none => none
      | some (content, _) => content

/-- `re.findall(r"<tr[^>]*>(.*?)</tr>", ..., DOTALL)`: repeatedly take the
next `<tr`, the maximal run of non-`>` characters, a `>`, and capture up to
the first `</tr>`; matches are non-overlapping and scanned left to right.
The fuel argument only bounds the recursion; each round consumes part of
the text, so `length + 1` rounds always suffice. -/
def findRowsGo : Nat → List Char → List (List Char)
  | 0, _ => []
  | fuel + 1, s =>
    match splitFirst "<tr".data s with
    | none => []
    | some (_, r1) =>
      match r1.dropWhile (fun c => c ≠ '>') with
      | '>' :: r2 =>
        match splitFirst "</tr>".data r2 with
        | none => []
        | some (row, rest) => row :: findRowsGo fuel rest
      | _ => []

def findRows (s : List Char) : List (List Char) := findRowsGo (s.length + 1) s

/-- `re.findall(r"<t[dh][^>]*>(.*?)</t[dh]>", ..., DOTALL)`, with the same
reading as `findRowsGo`. -/
def findCellsGo : Nat → List Char → List (List Char)
  | 0, _ => []
  | fuel + 1, s =>
    match splitFirst2 "<td".data "<th".data s with
    | none => []
    | some (_, r1) =>
      match r1.dropWhile (fun c => c ≠ '>') with
      | '>' :: r2 =>
        match splitFirst2 "</td>".data "</th>".data r2 with
        | none => []
        | some (cell, rest) => cell :: findCellsGo fuel rest
      | _ => []

def findCells (s : List Char) : List (List Char) := findCellsGo (s.length + 1) s

/-- `re.sub(r"<[^>]+>", "", c)`: delete every span `<`, one or more
non-`>` characters, `>`; matches are non-overlapping, scanned left to
right, and a `<` that opens no such span is kept. Each round either keeps
one character or consumes a whole span, so `length + 1` rounds of fuel
always suffice. -/
def stripTagsGo : Nat → List Char → List Char
  | 0, l => l
  | _ + 1, [] => []
  | fuel + 1, c :: rest =>
    if c = '<' then
      match rest.dropWhile (fun x => x ≠ '>') with
      | '>' :: rest2 =>
        if rest.takeWhile (fun x => x ≠ '>') = [] then c :: stripTagsGo fuel rest
        else stripTagsGo fuel rest2
      | _ => c :: stripTagsGo fuel rest
    else c :: stripTagsGo fuel rest

def stripTags (l : List Char) : List Char := stripTagsGo (l.length + 1) l

/-- The text of one cell, inner tags stripped and whitespace trimmed. -/
def cleanCell (c : List Char) : String := String.mk (pyStripChars (stripTags c))

/-- The response of the one HTTP GET, as `fetch_leaderboard` sees it. -/
structure HttpResponse where
  status : Nat
  text : String

/-- `fetch_leaderboard` after the GET returned: `raise_for_status` makes any
non-2xx status fatal, a page without a table span is fatal (RuntimeError),
and otherwise the rows of the table are parsed by the row loop. -/
def fetch_leaderboard (resp : HttpResponse) : Except Unit (List LeaderboardEntry) :=
  if 200 ≤ resp.status ∧ resp.status ≤ 299 then
    match extractTable resp.text with
    | none => .error ()
    | some tableHtml =>
      parseRows ((findRows tableHtml).map fun row => (findCells row).map cleanCell)
  else .error ()

def SOURCE_URL : String := "https://www.tbench.ai/leaderboard/terminal-bench/2.0"

/-- Orgs whose models are closed-source / not on the hub. -/
def CLOSED_MODEL_ORGS : List String := ["OpenAI", "Google", "xAI", "Anthropic"]

def AGENT_NAME : String := "Terminus 2"

/-- The static org alias table `MODEL_ORG_LOOKUP`. -/
def MODEL_ORG_LOOKUP : List (String × String) :=
  [("Kimi", "moonshotai"), ("Moonshot AI", "moonshotai"), ("Z-AI", "zai-org"),
   ("Z.ai", "zai-org"), ("MiniMax", "minimaxai"), ("Alibaba", "Qwen")]

/-- The three keep conditions of `filter_entries`, in source order. -/
def keepEntry (r : LeaderboardEntry) : Bool :=
  decide (r.agent = AGENT_NAME) && decide (r.model_org ∉ CLOSED_MODEL_ORGS) &&
    (MODEL_ORG_LOOKUP.lookup r.model_org).isSome

def filter_entries (results : List LeaderboardEntry) : List LeaderboardEntry :=
  results.filter keepEntry

def entryKey (e : LeaderboardEntry) : String × String := (e.model, e.model_org)

/-- The loop of `unique_models`: `seen` is the set of keys already emitted. -/
def uniqueModelsGo (seen : List (String × String)) :
    List LeaderboardEntry → List (String × String)
  | [] => []
  | e :: rest =>
    if entryKey e ∈ seen then uniqueModelsGo seen rest
    else entryKey e :: uniqueModelsGo (entryKey e :: seen) rest

/-- Deduplicated (model, model_org) pairs of the filtered entries. -/
def unique_models (entries : List LeaderboardEntry) : List (String × String) :=
  uniqueModelsGo [] entries

/-- Reference deduplication: keep the first occurrence of each value, in
order of first occurrence. -/
def dedupFirst {α : Type} [DecidableEq α] : List α → List α
  | [] => []
  | x :: xs => x :: dedupFirst (xs.filter fun y => decide (y ≠ x))
termination_by l => l.length
decreasing_by
  have := List.length_filter_le (fun y => decide (y ≠ x)) xs
  simp only [List.length_cons]
  omega

/-- A single hub repo match (`HFMatch`). -/
structure HFMatch where
  repo_id : String
  repo_type : String
  url : String
deriving DecidableEq

/-- All hub matches for a given model name (`MatchResult`; the field named
`matches` in the source is `matchList` here, `matches` being a keyword). -/
structure MatchResult where
  model_name : String
  model_org : String
  matchList : List HFMatch
deriving DecidableEq

/-- The hub search capability: the candidate repo ids its iterator yields in
ranked order, and whether the iterator raises after yielding them (a raise
before any candidate is `ids = []`, `raises = true`). -/
structure SearchStream where
  ids : List String
  raises : Bool

def asciiLower (s : String) : String := String.mk (s.data.map Char.toLower)

/-- `m.id.split("/")[0]`: the owner part of a repo id. -/
def ownerOf (rid : String) : String := String.mk (rid.data.takeWhile fun c => c ≠ '/')

def mkHFMatch (rid : String) : HFMatch :=
  ⟨rid, "model", "https://huggingface.co/" ++ rid⟩

/-- The candidate scan of `search_hf_hub`: the first candidate whose owner
equals the canonical owner (case-insensitively) is appended and the loop
breaks; if the iterator is exhausted without a hit and would raise, the
exception surfaces here (to be caught by the caller). -/
def scanLoop (hfOrgLower : String) : List String → Bool → Except Unit (List HFMatch)
  | [], false => .ok []
  | [], true => .error ()
  | rid :: rest, raises =>
    if asciiLower (ownerOf rid) = hfOrgLower then .ok [mkHFMatch rid]
    else scanLoop hfOrgLower rest raises

/-- `search_hf_hub`: no alias-table entry for the org means no match; any
exception from the search is caught and leaves the match list empty; an
empty match list becomes `none`. -/
def search_hf_hub (model_name model_org : String) (stream : SearchStream) :
    Option MatchResult :=
  match MODEL_ORG_LOOKUP.lookup model_org with
  | none => none
  | some hf_org =>
    match scanLoop (asciiLower hf_org) stream.ids stream.raises with
    | .ok found => if found.isEmpty then none else some ⟨model_name, model_org, found⟩
    | .error _ => none

/-- The match-collection loop of `main`: one search per deduplicated pair,
in order; a successful result is stored in the dict under the model NAME
(later writes to the same name overwrite earlier ones). -/
def collectMatches (searchFn : String → String → Option MatchResult)
    (models : List (String × String)) : String → Option MatchResult :=
  models.foldl
    (fun d p =>
      match searchFn p.1 p.2 with
      | none => d
      | some r => fun k => if k = p.1 then some r else d k)
    (fun _ => none)

/-- One record of the final report: the fields of the entry plus the
matched repo id and url. -/
structure OutputEntry where
  rank : Int
  agent : String
  model : String
  date : String
  agent_org : String
  model_org : String
  accuracy : ℚ
  error_margin : Option ℚ
  hf_repo_id : String
  hf_url : String
deriving DecidableEq

/-- `{**entry, "hf_repo_id": repo.repo_id, "hf_url": repo.url}`. -/
def enrich (e : LeaderboardEntry) (repo : HFMatch) : OutputEntry :=
  ⟨e.rank, e.agent, e.model, e.date, e.agent_org, e.model_org, e.accuracy, e.error_margin,
    repo.repo_id, repo.url⟩

/-- The entry loop of `build_output`: an entry whose model has no stored
MatchResult is skipped; `mr.matches[0]` on an empty match list raises
IndexError (uncaught). -/
def buildEntries (mrLookup : String → Option MatchResult) :
    List LeaderboardEntry → Except Unit (List OutputEntry)
  | [] => .ok []
  | e :: rest =>
    match mrLookup e.model with
    | none => buildEntries mrLookup rest
    | some mr =>
      match mr.matchList with
      | [] => .error ()
      | repo :: _ =>
        match buildEntries mrLookup rest with
        | .error er => .error er
        | .ok tail => .ok (enrich e repo :: tail)

structure Report where
  source : String
  entries : List OutputEntry
deriving DecidableEq

def build_output (entries : List LeaderboardEntry)
    (match_results : String → Option MatchResult) : Except Unit Report :=
  match buildEntries match_results entries with
  | .error e => .error e
  | .ok l => .ok ⟨SOURCE_URL, l⟩

/-- The search function `main` uses, once the per-call iterator behaviour is
fixed by `streams`. -/
def pipelineSearch (streams : String → String → SearchStream) (n o : String) :
    Option MatchResult :=
  search_hf_hub n o (streams n o)

/-- The match dictionary exactly as `main` builds it. -/
def pipelineLookup (entries : List LeaderboardEntry)
    (streams : String → String → SearchStream) : String → Option MatchResult :=
  collectMatches (pipelineSearch streams) (unique_models entries)

/-- `main` up to the value written to the output file: fetch and parse,
filter, search every deduplicated model, build the report. -/
def mainModel (resp : HttpResponse) (streams : String → String → SearchStream) :
    Except Unit Report :=
  match fetch_leaderboard resp with
  | .error e => .error e
  | .ok all => build_output (filter_entries all) (pipelineLookup (filter_entries all) streams)

/-- The writes `main` performs on the output path: the report when the run
reaches the write, nothing when the run aborts first. -/
def mainWrites (resp : HttpResponse) (streams : String → String → SearchStream) :
    List Report :=
  match mainModel resp streams with
  | .ok out => [out]
  | .error _ => []

/-- Concrete entry used to exercise the join: model "K2" under org alias
"Kimi". -/
def sampleEntryA : LeaderboardEntry :=
  ⟨1, "Terminus 2", "K2", "2025-09-01", "Moonshot AI", "Kimi", 60, none⟩

/-- Same model name as `sampleEntryA` but a different model_org. -/
def sampleEntryB : LeaderboardEntry :=
  ⟨2, "Terminus 2", "K2", "2025-09-02", "Moonshot AI", "Moonshot AI", 59, some 2⟩

/-- A search capability that always yields the one candidate
"moonshotai/K2" and never raises. -/
def sampleStreams : String → String → SearchStream := fun _ _ => ⟨["moonshotai/K2"], false⟩

def sampleHF : HFMatch := ⟨"moonshotai/K2", "model", "https://huggingface.co/moonshotai/K2"⟩

/-- The match dictionary `main` builds for the two sample entries. -/
def sampleLookup : String → Option MatchResult :=
  pipelineLookup [sampleEntryA, sampleEntryB] sampleStreams

def sampleReport : Report :=
  ⟨SOURCE_URL, [enrich sampleEntryA sampleHF, enrich sampleEntryB sampleHF]⟩

/-- The numeric tail of the row parser once the eight cells and the two
regex groups are fixed: used to state reduction lemmas about `parseRow`. -/
def parseRowNum (r a m d ao mo : String) (g1 g2 : List Char) :
    Except Unit (Option LeaderboardEntry) :=
  match pyFloatDD g1 with
  | none => .error ()
  | some accuracy =>
    if g2 = naChars then
      match pyInt r with
      | none => .error ()
      | some rk => .ok (some ⟨rk, a, m, d, ao, mo, accuracy, none⟩)
    else
      match pyFloatDD g2 with
      | none => .error ()
      | some margin =>
        match pyInt r with
        | none => .error ()
        | some rk => .ok (some ⟨rk, a, m, d, ao, mo, accuracy, some margin⟩)

lemma dedupFirst_cons {α : Type} [DecidableEq α] (x : α) (xs : List α) :
    dedupFirst (x :: xs) = x :: dedupFirst (xs.filter fun y => decide (y ≠ x)) := by
  rw [dedupFirst]

lemma mem_dedupFirst {α : Type} [DecidableEq α] :
    ∀ (l : List α) (a : α), a ∈ dedupFirst l ↔ a ∈ l := by
  intro l
  induction l using dedupFirst.induct with
  | case1 => intro a; rw [dedupFirst]
  | case2 x xs ih =>
    intro a
    rw [dedupFirst_cons]
    simp only [List.mem_cons, ih, List.mem_filter, decide_eq_true_eq]
    by_cases hax : a = x <;> simp [hax]

lemma nodup_dedupFirst {α : Type} [DecidableEq α] : ∀ l : List α, (dedupFirst l).Nodup := by
  intro l
  induction l using dedupFirst.induct with
  | case1 => rw [dedupFirst]; exact List.nodup_nil
  | case2 x xs ih =>
    rw [dedupFirst_cons]
    refine List.nodup_cons.2 ⟨fun hx => ?_, ih⟩
    rw [mem_dedupFirst, List.mem_filter] at hx
    simp at hx

lemma dedupFirst_sublist {α : Type} [DecidableEq α] :
    ∀ l : List α, List.Sublist (dedupFirst l) l := by
  intro l
  induction l using dedupFirst.induct with
  | case1 => rw [dedupFirst]
  | case2 x xs ih =>
    rw [dedupFirst_cons]
    exact List.Sublist.cons₂ x (ih.trans (List.filter_sublist xs))

lemma uniqueModelsGo_eq (seen : List (String × String)) (l : List LeaderboardEntry) :
    uniqueModelsGo seen l =
      dedupFirst ((l.map entryKey).filter fun k => decide (k ∉ seen)) := by
  induction l generalizing seen with
  | nil =>
    simp only [uniqueModelsGo, List.map_nil, List.filter_nil]
    rw [dedupFirst]
  | cons e es ih =>
    simp only [uniqueModelsGo, List.map_cons, List.filter_cons]
    by_cases hk : entryKey e ∈ seen
    · rw [if_pos hk]
      have hd : decide (entryKey e ∉ seen) = false := by simp [hk]
      simp only [hd, Bool.false_eq_true, if_false]
      exact ih seen
    · rw [if_neg hk]
      have hd : decide (entryKey e ∉ seen) = true := by simp [hk]
      simp only [hd, if_pos]
      rw [dedupFirst_cons, ih (entryKey e :: seen)]
      congr 1
      rw [List.filter_filter]
      refine congrArg dedupFirst ?_
      refine List.filter_congr ?_
      intro a _
      by_cases hae : a = entryKey e <;> by_cases has : a ∈ seen <;>
        simp [hae, has]

lemma pyFloatDD_nonneg {l : List Char} {q : ℚ} (h : pyFloatDD l = some q) : 0 ≤ q := by
  unfold pyFloatDD at h
  split at h
  · have hq := Option.some.inj h
    rw [← hq]
    exact Rat.divInt_nonneg (Int.natCast_nonneg _) (Int.ofNat_nonneg _)
  · exact Option.noConfusion h

lemma scanLoop_ok_length {p : String} :
    ∀ (ids : List String) (b : Bool) (l : List HFMatch),
      scanLoop p ids b = .ok l → l.length ≤ 1 := by
  intro ids
  induction ids with
  | nil =>
    intro b l h
    cases b with
    | false =>
      simp only [scanLoop] at h
      rw [← Except.ok.inj h]
      simp
    | true => exact Except.noConfusion h
  | cons rid rest ih =>
    intro b l h
    simp only [scanLoop] at h
    split at h
    · rw [← Except.ok.inj h]
      simp
    · exact ih b l h

lemma scanLoop_ok_find {p : String} :
    ∀ (ids : List String) (b : Bool) (l : List HFMatch),
      scanLoop p ids b = .ok l →
        l = ((ids.find? fun rid => decide (asciiLower (ownerOf rid) = p)).map mkHFMatch).toList := by
  intro ids
  induction ids with
  | nil =>
    intro b l h
    cases b with
    | false =>
      simp only [scanLoop] at h
      rw [← Except.ok.inj h]
      rfl
    | true => exact Except.noConfusion h
  | cons rid rest ih =>
    intro b l h
    simp only [scanLoop] at h
    rw [List.find?_cons]
    split at h
    · rename_i hp
      rw [← Except.ok.inj h]
      simp [hp]
    · rename_i hp
      have := ih b l h
      simp only [show decide (asciiLower (ownerOf rid) = p) = false by simp [hp]]
      exact this

lemma scanLoop_no_hit {p : String} :
    ∀ (ids : List String) (b : Bool),
      (ids.find? fun rid => decide (asciiLower (ownerOf rid) = p)) = none →
        scanLoop p ids b = (if b then .error () else .ok []) := by
  intro ids
  induction ids with
  | nil =>
    intro b _
    cases b <;> rfl
  | cons rid rest ih =>
    intro b hf
    rw [List.find?_cons] at hf
    split at hf
    · exact Option.noConfusion hf
    · rename_i hp
      simp only [scanLoop]
      rw [if_neg (by simpa using hp)]
      exact ih b hf

lemma search_hf_hub_singleton {n o : String} {s : SearchStream} {mr : MatchResult}
    (h : search_hf_hub n o s = some mr) : ∃ m, mr.matchList = [m] := by
  unfold search_hf_hub at h
  split at h
  · exact Option.noConfusion h
  · rename_i hf_org hlk
    split at h
    · rename_i found hscan
      split at h
      · exact Option.noConfusion h
      · rename_i hne
        have h1 : mr.matchList = found := by rw [← Option.some.inj h]
        have h2 := scanLoop_ok_length s.ids s.raises found hscan
        rw [h1]
        match found, h2 with
        | [m], _ => exact ⟨m, rfl⟩
        | [], _ => simp at hne
    · exact Option.noConfusion h

lemma collectMatches_some {f : String → String → Option MatchResult} :
    ∀ (ps : List (String × String)) (d : String → Option MatchResult) (k : String)
      (mr : MatchResult),
      (∀ k0 mr0, d k0 = some mr0 → ∃ n o, f n o = some mr0) →
      ps.foldl
        (fun d p => match f p.1 p.2 with
          | none => d
          | some r => fun k => if k = p.1 then some r else d k) d k = some mr →
      ∃ n o, f n o = some mr := by
  intro ps
  induction ps with
  | nil => intro d k mr hd h; exact hd k mr h
  | cons p rest ih =>
    intro d k mr hd h
    simp only [List.foldl_cons] at h
    refine ih _ k mr ?_ h
    intro k0 mr0 hk0
    cases hf : f p.1 p.2 with
    | none => rw [hf] at hk0; exact hd k0 mr0 hk0
    | some r =>
      rw [hf] at hk0
      have hk1 : (if k0 = p.1 then some r else d k0) = some mr0 := hk0
      by_cases hkp : k0 = p.1
      · rw [if_pos hkp] at hk1
        exact ⟨p.1, p.2, by rw [hf, Option.some.inj hk1]⟩
      · rw [if_neg hkp] at hk1
        exact hd k0 mr0 hk1

lemma pipelineLookup_some {entries : List LeaderboardEntry}
    {streams : String → String → SearchStream} {k : String} {mr : MatchResult}
    (h : pipelineLookup entries streams k = some mr) : ∃ m, mr.matchList = [m] := by
  obtain ⟨n, o, hno⟩ :=
    collectMatches_some (f := pipelineSearch streams) (unique_models entries)
      (fun _ => none) k mr (fun _ _ h0 => Option.noConfusion h0) h
  exact search_hf_hub_singleton hno

lemma buildEntries_mem {lookup : String → Option MatchResult} :
    ∀ (l : List LeaderboardEntry) (out : List OutputEntry),
      buildEntries lookup l = .ok out →
      ∀ o ∈ out, ∃ e ∈ l, ∃ mr repo rest,
        lookup e.model = some mr ∧ mr.matchList = repo :: rest ∧ o = enrich e repo := by
  intro l
  induction l with
  | nil =>
    intro out h o ho
    simp only [buildEntries] at h
    rw [← Except.ok.inj h] at ho
    exact absurd ho (List.not_mem_nil o)
  | cons e es ih =>
    intro out h o ho
    simp only [buildEntries] at h
    split at h
    · obtain ⟨e1, he1, rest⟩ := ih out h o ho
      exact ⟨e1, List.mem_cons_of_mem e he1, rest⟩
    · rename_i mr hmr
      split at h
      · exact Except.noConfusion h
      · rename_i repo rest0 hml
        split at h
        · exact Except.noConfusion h
        · rename_i tail htail
          rw [← Except.ok.inj h] at ho
          rcases List.mem_cons.1 ho with hhead | htl
          · exact ⟨e, List.mem_cons_self e es, mr, repo, rest0, hmr, hml, hhead⟩
          · obtain ⟨e1, he1, rest⟩ := ih tail htail o htl
            exact ⟨e1, List.mem_cons_of_mem e he1, rest⟩

lemma buildEntries_total {lookup : String → Option MatchResult}
    (hne : ∀ k mr, lookup k = some mr → mr.matchList ≠ []) :
    ∀ l : List LeaderboardEntry, ∃ out, buildEntries lookup l = .ok out := by
  intro l
  induction l with
  | nil => exact ⟨[], rfl⟩
  | cons e es ih =>
    obtain ⟨out, hout⟩ := ih
    cases hmr : lookup e.model with
    | none => exact ⟨out, by simp [buildEntries, hmr, hout]⟩
    | some mr =>
      cases hml : mr.matchList with
      | nil => exact absurd hml (hne e.model mr hmr)
      | cons repo rest0 =>
        exact ⟨enrich e repo :: out, by simp [buildEntries, hmr, hml, hout]⟩

lemma parseRow_eight (c0 r a m d ao mo acc : String) (hr : r ≠ "Rank") :
    parseRow [c0, r, a, m, d, ao, mo, acc] =
      match accMatch acc with
      | none => .ok none
      | some (g1, g2) => parseRowNum r a m d ao mo g1 g2 := by
  have hcond : ¬(([c0, r, a, m, d, ao, mo, acc] : List String).length ≤ 1 ∨
      ([c0, r, a, m, d, ao, mo, acc] : List String)[1]? = some "Rank") := by
    simp [hr]
  unfold parseRow
  rw [if_neg hcond]
  rfl

lemma parseRowNum_some_iff (r a m d ao mo : String) (g1 g2 : List Char) :
    (∃ e, parseRowNum r a m d ao mo g1 g2 = .ok (some e)) ↔
      (pyFloatDD g1).isSome = true ∧ (g2 = naChars ∨ (pyFloatDD g2).isSome = true) ∧
        (pyInt r).isSome = true := by
  unfold parseRowNum
  cases hf1 : pyFloatDD g1 with
  | none => simp
  | some accuracy =>
    by_cases hna : g2 = naChars
    · simp only [hna, if_pos rfl]
      cases hint : pyInt r <;> simp [hint]
    · simp only [if_neg hna]
      cases hf2 : pyFloatDD g2 with
      | none => simp [hna]
      | some margin =>
        cases hint : pyInt r <;> simp [hint, hna]

lemma parseRowNum_fields (r a m d ao mo : String) (g1 g2 : List Char)
    (e : LeaderboardEntry) (h : parseRowNum r a m d ao mo g1 g2 = .ok (some e)) :
    pyFloatDD g1 = some e.accuracy ∧ (g2 = naChars → e.error_margin = none) ∧
      (g2 ≠ naChars → e.error_margin = pyFloatDD g2) := by
  unfold parseRowNum at h
  cases hf1 : pyFloatDD g1 with
  | none => simp only [hf1] at h; exact Except.noConfusion h
  | some accuracy =>
    simp only [hf1] at h
    by_cases hna : g2 = naChars
    · rw [if_pos hna] at h
      cases hint : pyInt r with
      | none => simp only [hint] at h; exact Except.noConfusion h
      | some rk =>
        simp only [hint] at h
        have he := Option.some.inj (Except.ok.inj h)
        subst he
        exact ⟨rfl, fun _ => rfl, fun hne => absurd hna hne⟩
    · rw [if_neg hna] at h
      cases hf2 : pyFloatDD g2 with
      | none => simp only [hf2] at h; exact Except.noConfusion h
      | some margin =>
        simp only [hf2] at h
        cases hint : pyInt r with
        | none => simp only [hint] at h; exact Except.noConfusion h
        | some rk =>
          simp only [hint] at h
          have he := Option.some.inj (Except.ok.inj h)
          subst he
          exact ⟨rfl, fun hna2 => absurd hna2 hna, fun _ => rfl⟩


/-- C1: the claim says that a rank cell that does not parse as an integer
makes the row parser skip the row and the run continue. In the code,
`int(rank_str)` sits outside the `try` that guards the tuple unpacking, so
on the row below — exactly 8 cells, accuracy cell matching the expected
pattern, rank cell "x" — the ValueError is uncaught: the row parser raises
instead of skipping, and the row loop (hence the whole run) aborts. -/
theorem c1_rank_failure_aborts :
    parseRow ["", "x", "Terminus 2", "GLM-4.6", "2025-10-01", "Z-AI", "Z-AI", "75.1%± 2.4"] =
      .error () ∧
    parseRows [["", "x", "Terminus 2", "GLM-4.6", "2025-10-01", "Z-AI", "Z-AI", "75.1%± 2.4"]] =
      .error () :=
  ⟨rfl, rfl⟩

/-- C2 counterexample: on an accuracy cell with trailing text after the
margin, the whole cell does NOT match the pattern, yet the row parser
(which uses the prefix-anchored `re.match`) still produces an entry — the
claimed equivalence with a whole-cell match fails at this row. -/
theorem c2_counterexample :
    specAccuracyWhole "75.1%± 2.4junk" = false ∧
    parseRow ["", "1", "Terminus 2", "GLM-4.6", "2025-10-01", "Z-AI", "Z-AI", "75.1%± 2.4junk"] =
      .ok (some ⟨1, "Terminus 2", "GLM-4.6", "2025-10-01", "Z-AI", "Z-AI",
        Rat.divInt 751 10, some (Rat.divInt 24 10)⟩) :=
  ⟨rfl, by decide⟩

/-- C2 amended: for an 8-cell non-header row, the row parser produces an
entry iff a PREFIX of the accuracy cell matches `<number>%±<ws><number|N/A>`
(the semantics of `re.match`) and the matched tokens convert (accuracy
group, margin group unless it is "N/A", rank cell as integer); a cell with
no matching prefix makes the row be skipped; on success the accuracy equals
the parsed percentage and the margin is the parsed value, absent for
"N/A". -/
theorem c2_amended_prefix_match (c0 r a m d ao mo acc : String) (hr : r ≠ "Rank") :
    (accMatch acc = none → parseRow [c0, r, a, m, d, ao, mo, acc] = .ok none) ∧
    ∀ g1 g2, accMatch acc = some (g1, g2) →
      ((∃ e, parseRow [c0, r, a, m, d, ao, mo, acc] = .ok (some e)) ↔
        (pyFloatDD g1).isSome = true ∧ (g2 = naChars ∨ (pyFloatDD g2).isSome = true) ∧
          (pyInt r).isSome = true) ∧
      ∀ e, parseRow [c0, r, a, m, d, ao, mo, acc] = .ok (some e) →
        pyFloatDD g1 = some e.accuracy ∧
        (g2 = naChars → e.error_margin = none) ∧
        (g2 ≠ naChars → e.error_margin = pyFloatDD g2) := by
  have hstep := parseRow_eight c0 r a m d ao mo acc hr
  constructor
  · intro hacc
    rw [hstep, hacc]
  · intro g1 g2 hacc
    rw [hstep, hacc]
    exact ⟨parseRowNum_some_iff r a m d ao mo g1 g2,
      fun e he => parseRowNum_fields r a m d ao mo g1 g2 e he⟩

/-- C2 amended, exercised at a concrete row with an "N/A" margin. -/
theorem c2_amended_witness :
    (accMatch "60.7%± N/A" = none →
      parseRow ["", "2", "Terminus 2", "Kimi K2", "2025-10-01", "Moonshot AI", "Kimi",
        "60.7%± N/A"] = .ok none) ∧
    ∀ g1 g2, accMatch "60.7%± N/A" = some (g1, g2) →
      ((∃ e, parseRow ["", "2", "Terminus 2", "Kimi K2", "2025-10-01", "Moonshot AI", "Kimi",
          "60.7%± N/A"] = .ok (some e)) ↔
        (pyFloatDD g1).isSome = true ∧ (g2 = naChars ∨ (pyFloatDD g2).isSome = true) ∧
          (pyInt "2").isSome = true) ∧
      ∀ e, parseRow ["", "2", "Terminus 2", "Kimi K2", "2025-10-01", "Moonshot AI", "Kimi",
          "60.7%± N/A"] = .ok (some e) →
        pyFloatDD g1 = some e.accuracy ∧
        (g2 = naChars → e.error_margin = none) ∧
        (g2 ≠ naChars → e.error_margin = pyFloatDD g2) :=
  c2_amended_prefix_match "" "2" "Terminus 2" "Kimi K2" "2025-10-01" "Moonshot AI" "Kimi"
    "60.7%± N/A" (by decide)

/-- C3 counterexample: a parsed row with rank cell "0" and accuracy cell
"150.5%± 2.4" yields an entry whose rank is below 1 and whose accuracy is
above 100 — both claimed data-model bounds fail on it. -/
theorem c3_counterexample :
    parseRow ["", "0", "Terminus 2", "M1", "2025-10-01", "OrgA", "Kimi", "150.5%± 2.4"] =
      .ok (some ⟨0, "Terminus 2", "M1", "2025-10-01", "OrgA", "Kimi",
        Rat.divInt 1505 10, some (Rat.divInt 24 10)⟩) ∧
    ¬((1 : Int) ≤ 0) ∧ ¬(Rat.divInt 1505 10 ≤ 100) :=
  ⟨by decide, by decide, by decide⟩

/-- C3 amended: nothing bounds the parsed rank, and the accuracy may exceed
100; what does hold is that the accuracy of every produced entry is
nonnegative (the regex group is made of digits and dots only). -/
theorem c3_amended_nonneg (cells : List String) (e : LeaderboardEntry)
    (h : parseRow cells = .ok (some e)) : 0 ≤ e.accuracy := by
  unfold parseRow at h
  split at h
  · simp at h
  · split at h
    · rename_i x0 rstr astr mstr dstr aostr mostr accstr hnot
      have h2 : (match accMatch accstr with
          | none => Except.ok none
          | some (g1, g2) => parseRowNum rstr astr mstr dstr aostr mostr g1 g2) =
            .ok (some e) := h
      cases hacc : accMatch accstr with
      | none => rw [hacc] at h2; exact absurd h2 (by simp)
      | some p =>
        obtain ⟨g1, g2⟩ := p
        rw [hacc] at h2
        have h3 : parseRowNum rstr astr mstr dstr aostr mostr g1 g2 = .ok (some e) := h2
        obtain ⟨hf1, -, -⟩ := parseRowNum_fields rstr astr mstr dstr aostr mostr g1 g2 e h3
        exact pyFloatDD_nonneg hf1
    · simp at h

/-- C3 amended, exercised at a concrete parsed row. -/
theorem c3_amended_witness :
    parseRow ["", "5", "Terminus 2", "GLM-4.6", "2025-10-01", "Z-AI", "Z.ai", "42.5%± 1.1"] =
      .ok (some ⟨5, "Terminus 2", "GLM-4.6", "2025-10-01", "Z-AI", "Z.ai",
        Rat.divInt 425 10, some (Rat.divInt 11 10)⟩) ∧
    (0 : ℚ) ≤ (⟨5, "Terminus 2", "GLM-4.6", "2025-10-01", "Z-AI", "Z.ai",
        Rat.divInt 425 10, some (Rat.divInt 11 10)⟩ : LeaderboardEntry).accuracy :=
  ⟨by decide, c3_amended_nonneg
    ["", "5", "Terminus 2", "GLM-4.6", "2025-10-01", "Z-AI", "Z.ai", "42.5%± 1.1"]
    ⟨5, "Terminus 2", "GLM-4.6", "2025-10-01", "Z-AI", "Z.ai",
      Rat.divInt 425 10, some (Rat.divInt 11 10)⟩ (by decide)⟩

/-- C5: the entry filter keeps an entry iff the agent equals the target
agent, the model org is not in the excluded set, and the model org has an
alias-table entry — the equivalence holds for every entry, hence for all
eight combinations of the three predicates. -/
theorem c5_filter_iff (l : List LeaderboardEntry) (e : LeaderboardEntry) :
    e ∈ filter_entries l ↔
      e ∈ l ∧ e.agent = AGENT_NAME ∧ e.model_org ∉ CLOSED_MODEL_ORGS ∧
        (MODEL_ORG_LOOKUP.lookup e.model_org).isSome = true := by
  simp [filter_entries, keepEntry, List.mem_filter, and_assoc]

/-- C6: the candidate scan takes the first candidate whose owner equals the
canonical owner under case-insensitive comparison and stops there (its
result is the first hit of `find?`, so at most one candidate); every
successful search retains exactly one candidate; and on the ranked list
["bad/org", "GoodOrg/m", "GoodOrg/m2"] with canonical owner "goodorg" the
selected candidate is "GoodOrg/m". -/
theorem c6_first_owner_match :
    (∀ p ids b l, scanLoop p ids b = .ok l →
      l = ((ids.find? fun rid => decide (asciiLower (ownerOf rid) = p)).map mkHFMatch).toList ∧
        l.length ≤ 1) ∧
    (∀ n o s mr, search_hf_hub n o s = some mr → ∃ m, mr.matchList = [m]) ∧
    scanLoop (asciiLower "goodorg") ["bad/org", "GoodOrg/m", "GoodOrg/m2"] false =
      .ok [mkHFMatch "GoodOrg/m"] :=
  ⟨fun p ids b l h => ⟨scanLoop_ok_find ids b l h, scanLoop_ok_length ids b l h⟩,
    fun _ _ _ _ h => search_hf_hub_singleton h, by decide⟩

/-- C7: unique_models returns the distinct (model, model_org) pairs in
first-seen order — it equals the first-occurrence deduplication of the key
sequence, has no duplicates, is a subsequence of the key sequence (so the
surviving occurrences keep their input positions and order), and a pair
occurring anywhere in the input appears in the output exactly once. -/
theorem c7_unique_models_dedup (entries : List LeaderboardEntry) :
    unique_models entries = dedupFirst (entries.map entryKey) ∧
    (unique_models entries).Nodup ∧
    (∀ p, p ∈ unique_models entries ↔ p ∈ entries.map entryKey) ∧
    List.Sublist (unique_models entries) (entries.map entryKey) ∧
    ∀ p, p ∈ entries.map entryKey → (unique_models entries).count p = 1 := by
  have h0 : unique_models entries = dedupFirst (entries.map entryKey) := by
    rw [unique_models, uniqueModelsGo_eq]
    refine congrArg dedupFirst (List.filter_eq_self.2 ?_)
    intro a _
    simp
  refine ⟨h0, ?_, ?_, ?_, ?_⟩
  · rw [h0]; exact nodup_dedupFirst _
  · intro p; rw [h0]; exact mem_dedupFirst _ p
  · rw [h0]; exact dedupFirst_sublist _
  · intro p hp
    have hnd : (unique_models entries).Nodup := by rw [h0]; exact nodup_dedupFirst _
    have hm : p ∈ unique_models entries := by rw [h0]; exact (mem_dedupFirst _ p).2 hp
    have h2 := List.count_eq_one_of_mem hnd hm
    rw [← h2]
    show List.countP (fun a => a == p) (unique_models entries) =
      List.countP (fun a => decide (a = p)) (unique_models entries)
    refine List.countP_congr ?_
    intro a _
    by_cases hap : a = p <;> simp [hap]

/-- C7, exercised: two entries sharing the pair ("K2", "Kimi") produce that
pair exactly once. -/
theorem c7_unique_models_witness :
    (unique_models [sampleEntryA, sampleEntryA, sampleEntryB]).count ("K2", "Kimi") = 1 :=
  (c7_unique_models_dedup [sampleEntryA, sampleEntryA, sampleEntryB]).2.2.2.2
    ("K2", "Kimi") (by decide)

/-- C8: search_hf_hub returns no match when the org has no alias-table
entry (whatever the stream does), and when no yielded candidate matches —
so a raising stream actually reaches its exception — the exception is
caught and the result coincides with that of a search returning zero
candidates, namely no match; the failure is never propagated (the function
is total and yields `none`). -/
theorem c8_search_failures (name org : String) (cands : List String) :
    (MODEL_ORG_LOOKUP.lookup org = none →
      ∀ b, search_hf_hub name org ⟨cands, b⟩ = none) ∧
    ∀ hf_org, MODEL_ORG_LOOKUP.lookup org = some hf_org →
      (cands.find? fun rid => decide (asciiLower (ownerOf rid) = asciiLower hf_org)) = none →
      search_hf_hub name org ⟨cands, true⟩ = search_hf_hub name org ⟨[], false⟩ ∧
        search_hf_hub name org ⟨[], false⟩ = none := by
  constructor
  · intro hlk b
    unfold search_hf_hub
    rw [hlk]
  · intro hf_org hlk hfind
    have h1 : scanLoop (asciiLower hf_org) cands true = .error () := by
      simpa using scanLoop_no_hit cands true hfind
    constructor
    · unfold search_hf_hub
      rw [hlk]
      dsimp only
      rw [h1]
      rfl
    · unfold search_hf_hub
      rw [hlk]
      rfl

/-- C8, exercised: an unmapped org gives no match even on a raising stream,
and a raising stream with no matching candidate behaves like an empty
result list for a mapped org. -/
theorem c8_search_failures_witness :
    search_hf_hub "m" "SomeOrg" ⟨["a/b"], true⟩ = none ∧
    search_hf_hub "m" "Kimi" ⟨["other/not-it"], true⟩ =
      search_hf_hub "m" "Kimi" ⟨[], false⟩ :=
  ⟨(c8_search_failures "m" "SomeOrg" ["a/b"]).1 (by decide) true,
    ((c8_search_failures "m" "Kimi" ["other/not-it"]).2 "moonshotai" (by decide)
      (by decide)).1⟩

/-- C4: in the join, the repository match of an entry is looked up by the
model NAME alone, not the (model, model_org) pair: every emitted record
carries the head match of whatever MatchResult the dictionary stores under
its model name, so any two emitted records with the same model name carry
the same hf_repo_id and hf_url, whatever their model_orgs. -/
theorem c4_join_by_model_name (entries : List LeaderboardEntry)
    (lookup : String → Option MatchResult) (rep : Report)
    (h : build_output entries lookup = .ok rep) :
    (∀ o ∈ rep.entries, ∃ mr repo rest, lookup o.model = some mr ∧
      mr.matchList = repo :: rest ∧ o.hf_repo_id = repo.repo_id ∧ o.hf_url = repo.url) ∧
    ∀ o1 ∈ rep.entries, ∀ o2 ∈ rep.entries,
      o1.model = o2.model → o1.hf_repo_id = o2.hf_repo_id ∧ o1.hf_url = o2.hf_url := by
  have hb : ∃ out, buildEntries lookup entries = .ok out ∧ rep.entries = out := by
    unfold build_output at h
    split at h
    · exact Except.noConfusion h
    · rename_i l hl
      exact ⟨l, hl, by rw [← Except.ok.inj h]⟩
  obtain ⟨out, hout, hre⟩ := hb
  have hfields : ∀ o ∈ rep.entries, ∃ mr repo rest, lookup o.model = some mr ∧
      mr.matchList = repo :: rest ∧ o.hf_repo_id = repo.repo_id ∧ o.hf_url = repo.url := by
    intro o ho
    rw [hre] at ho
    obtain ⟨e, -, mr, repo, rest, hmr, hml, hoe⟩ := buildEntries_mem entries out hout o ho
    refine ⟨mr, repo, rest, ?_, hml, ?_, ?_⟩
    · rw [hoe]; exact hmr
    · rw [hoe]; rfl
    · rw [hoe]; rfl
  refine ⟨hfields, ?_⟩
  intro o1 h1 o2 h2 hm
  obtain ⟨mr1, r1, s1, hmr1, hml1, hid1, hurl1⟩ := hfields o1 h1
  obtain ⟨mr2, r2, s2, hmr2, hml2, hid2, hurl2⟩ := hfields o2 h2
  rw [hm] at hmr1
  have hmr12 : mr1 = mr2 := Option.some.inj (hmr1.symm.trans hmr2)
  rw [hmr12] at hml1
  have hr12 : r1 = r2 := by
    have h12 := hml1.symm.trans hml2
    injection h12
  rw [hid1, hurl1, hid2, hurl2, hr12]
  exact ⟨rfl, rfl⟩

/-- C4, exercised: two entries sharing model "K2" under the different orgs
"Kimi" and "Moonshot AI" both receive the repo stored under "K2". -/
theorem c4_join_by_model_name_witness :
    build_output [sampleEntryA, sampleEntryB] sampleLookup = .ok sampleReport ∧
    (enrich sampleEntryA sampleHF).hf_repo_id = (enrich sampleEntryB sampleHF).hf_repo_id ∧
    (enrich sampleEntryA sampleHF).hf_url = (enrich sampleEntryB sampleHF).hf_url :=
  ⟨rfl,
    (c4_join_by_model_name [sampleEntryA, sampleEntryB] sampleLookup sampleReport rfl).2
      (enrich sampleEntryA sampleHF) (by simp [sampleReport])
      (enrich sampleEntryB sampleHF) (by simp [sampleReport]) rfl⟩

/-- C9: for the match dictionary exactly as `main` builds it, the join
always succeeds and every record of the produced report carries exactly one
repository match — its model name is stored with a singleton match list
whose repo id and url are the fields of the record; an entry whose model
has no stored MatchResult contributes no record (and an empty MatchResult
is never stored, since a matchless search returns `none`). -/
theorem c9_report_invariant (entries : List LeaderboardEntry)
    (streams : String → String → SearchStream) :
    ∃ rep, build_output entries (pipelineLookup entries streams) = .ok rep ∧
      ∀ o ∈ rep.entries, ∃ mr m, pipelineLookup entries streams o.model = some mr ∧
        mr.matchList = [m] ∧ o.hf_repo_id = m.repo_id ∧ o.hf_url = m.url := by
  have hne : ∀ k mr, pipelineLookup entries streams k = some mr → mr.matchList ≠ [] := by
    intro k mr h
    obtain ⟨m, hm⟩ := pipelineLookup_some h
    rw [hm]
    simp
  obtain ⟨out, hout⟩ := buildEntries_total hne entries
  refine ⟨⟨SOURCE_URL, out⟩, ?_, ?_⟩
  · unfold build_output
    rw [hout]
  · intro o ho
    obtain ⟨e, -, mr, repo, rest, hmr, hml, hoe⟩ := buildEntries_mem entries out hout o ho
    obtain ⟨m, hm⟩ := pipelineLookup_some hmr
    have hrm : repo = m ∧ rest = [] := by
      have h12 := hml.symm.trans hm
      exact ⟨by injection h12, by injection h12⟩
    refine ⟨mr, m, ?_, hm, ?_, ?_⟩
    · rw [hoe]; exact hmr
    · rw [hoe, ← hrm.1]; rfl
    · rw [hoe, ← hrm.1]; rfl

/-- C9, exercised: on the sample pipeline the emitted record for model "K2"
carries the repo id and url of its unique stored match. -/
theorem c9_report_invariant_witness :
    (enrich sampleEntryA sampleHF).hf_repo_id = "moonshotai/K2" ∧
    (enrich sampleEntryA sampleHF).hf_url = "https://huggingface.co/moonshotai/K2" := by
  obtain ⟨rep, h1, h2⟩ := c9_report_invariant [sampleEntryA, sampleEntryB] sampleStreams
  have h3 : (Except.ok rep : Except Unit Report) = .ok sampleReport := by
    rw [← h1]
    rfl
  have h4 : rep = sampleReport := Except.ok.inj h3
  subst h4
  obtain ⟨mr, m, hmr, hml, hid, hurl⟩ :=
    h2 (enrich sampleEntryA sampleHF) (by simp [sampleReport])
  have h5 : pipelineLookup [sampleEntryA, sampleEntryB] sampleStreams
      (enrich sampleEntryA sampleHF).model =
        some ⟨"K2", "Moonshot AI", [sampleHF]⟩ := by decide
  rw [h5] at hmr
  obtain rfl : (⟨"K2", "Moonshot AI", [sampleHF]⟩ : MatchResult) = mr :=
    Option.some.inj hmr
  have h7 : [sampleHF] = [m] := hml
  injection h7 with h8 h9
  subst h8
  exact ⟨hid, hurl⟩

/-- C10: a fatal fetch or extraction failure aborts the run before the
output file is written — when the HTTP status is not 2xx or the page
contains no table span, main performs no write at all. -/
theorem c10_fatal_no_write (resp : HttpResponse)
    (streams : String → String → SearchStream)
    (h : ¬(200 ≤ resp.status ∧ resp.status ≤ 299) ∨ extractTable resp.text = none) :
    mainWrites resp streams = [] := by
  have hf : fetch_leaderboard resp = .error () := by
    unfold fetch_leaderboard
    rcases h with h1 | h2
    · rw [if_neg h1]
    · by_cases hs : 200 ≤ resp.status ∧ resp.status ≤ 299
      · rw [if_pos hs, h2]
      · rw [if_neg hs]
  unfold mainWrites mainModel
  rw [hf]

/-- C10, exercised: a 404 response and a 200 response whose body has no
table both leave the write list empty. -/
theorem c10_fatal_no_write_witness :
    mainWrites ⟨404, "<table><tr></tr></table>"⟩ (fun _ _ => ⟨[], false⟩) = [] ∧
    mainWrites ⟨200, "no table here"⟩ (fun _ _ => ⟨[], false⟩) = [] :=
  ⟨c10_fatal_no_write ⟨404, "<table><tr></tr></table>"⟩ (fun _ _ => ⟨[], false⟩)
      (Or.inl (by decide)),
    c10_fatal_no_write ⟨200, "no table here"⟩ (fun _ _ => ⟨[], false⟩)
      (Or.inr (by decide))⟩
